import Mathlib

/-!
# Verification of the nutrition-tables add-on

A shallow embedding of the matching-and-aggregation engine of the
nutrition-tables add-on (`nutrition-tables.js`, drop-in v1.3).  JavaScript
numbers are modelled as exact rationals (`ℚ`), JavaScript strings as Lean
strings (the data is ASCII apart from vulgar-fraction characters, on which
`toLowerCase` is the identity), JavaScript `Map`/`Set` as insertion-ordered
association lists / lists, and absent (`null`/`undefined`) values as
`Option`.  All definitions are executable.
-/

namespace NutritionTables

/-! ## JavaScript string primitives

Character-level implementations of the string operations the source uses,
written over `List Char` so that the regular-expression replacements of the
source can be embedded exactly.  JS `\w` is `[A-Za-z0-9_]`; JS `\s` is
modelled by `Char.isWhitespace` (the inputs contain no exotic whitespace).
-/

def isWordChar (c : Char) : Bool := c.isAlpha || c.isDigit || c = '_'

/-- A word boundary `\b` holds after a word character when the following
text starts with a non-word character or is empty. -/
def boundaryAfter : List Char → Bool
  | [] => true
  | c :: _ => !isWordChar c

def jsToLower (s : String) : String := String.mk (s.toList.map Char.toLower)

def trimChars (cs : List Char) : List Char :=
  ((cs.dropWhile Char.isWhitespace).reverse.dropWhile Char.isWhitespace).reverse

/-- JS `String.prototype.trim`. -/
def jsTrim (s : String) : String := String.mk (trimChars s.toList)

def listInfixOf (sub : List Char) : List Char → Bool
  | [] => sub.isEmpty
  | c :: rest => sub.isPrefixOf (c :: rest) || listInfixOf sub rest

/-- JS `String.prototype.includes`: `jsIncludes s sub` is `s.includes(sub)`. -/
def jsIncludes (s sub : String) : Bool := listInfixOf sub.toList s.toList

/-- JS `s.startsWith(pre)`. -/
def jsStartsWith (s pre : String) : Bool := pre.toList.isPrefixOf s.toList

/-- JS `s.endsWith(suf)`. -/
def jsEndsWith (s suf : String) : Bool := suf.toList.isSuffixOf s.toList

/-- Drop the last `n` characters (JS `s.slice(0, -n)`). -/
def jsDropRight (s : String) (n : Nat) : String :=
  String.mk (s.toList.take (s.toList.length - n))

def splitSpAux : List Char → List Char → List String
  | [], acc => [String.mk acc.reverse]
  | ' ' :: rest, acc => String.mk acc.reverse :: splitSpAux rest []
  | c :: rest, acc => splitSpAux rest (c :: acc)

/-- JS `s.split(" ")`: split on every single space, keeping empty pieces. -/
def jsSplitSpace (s : String) : List String := splitSpAux s.toList []

/-- Split on `'\n'` (keeping empty pieces), as `String.prototype.split`. -/
def splitNl : List Char → List (List Char)
  | [] => [[]]
  | c :: rest =>
    if c = '\n' then [] :: splitNl rest
    else
      match splitNl rest with
      | piece :: more => (c :: piece) :: more
      | [] => [[c]]

/-- JS `text.split(/\r?\n/)`: equivalently, split on `'\n'` and drop one
trailing `'\r'` from each piece. -/
def jsSplitLines (t : String) : List String :=
  (splitNl t.toList).map fun cs =>
    String.mk (if cs.getLast? = some '\r' then cs.dropLast else cs)

/-- Look up a key in an insertion-ordered association list (JS `Map.get`;
keys are unique by construction everywhere the source builds a map). -/
def assocGet {α : Type} (m : List (String × α)) (k : String) : Option α :=
  (m.find? fun kv => kv.1 == k).map (·.2)

/-- JS `Array.prototype.findIndex`, as an `Option`. -/
def jsFindIndex {α : Type} (p : α → Bool) : List α → Option Nat
  | [] => none
  | a :: rest => if p a then some 0 else (jsFindIndex p rest).map (· + 1)

/-! ## CSV cell values

Papa Parse is invoked with `dynamicTyping`, so a cell is a number, a
boolean, a string (non-numeric text, since numeric text was converted), or
null.  `jsToNumber` is the JS `Number(v)` coercion restricted to finite
results: `Number(null) = 0`, `Number(true/false) = 1/0`, a whitespace-only
string coerces to `0` and any other (non-numeric) string to `NaN`.
`jsString`/`jsTruthy` are JS `String(v)` and truthiness.  Non-integral
rationals are printed as fractions rather than decimals; no claim depends
on the decimal rendering, only on whether the result is one of
`y`/`yes`/`true`/`1` or empty. -/

inductive CsvVal where
  | vnum : ℚ → CsvVal
  | vstr : String → CsvVal
  | vbool : Bool → CsvVal
  | vnull : CsvVal
deriving DecidableEq, Repr

def jsToNumber : CsvVal → Option ℚ
  | .vnum q => some q
  | .vbool b => some (if b then 1 else 0)
  | .vnull => some 0
  | .vstr s => if (s.toList.dropWhile Char.isWhitespace).isEmpty then some 0 else none

def jsTruthy : CsvVal → Bool
  | .vnum q => q ≠ 0
  | .vbool b => b
  | .vnull => false
  | .vstr s => s ≠ ""

def jsString : CsvVal → String
  | .vnum q => toString q
  | .vbool b => if b then "true" else "false"
  | .vnull => "null"
  | .vstr s => s

/-- A parsed CSV record: an insertion-ordered field-name → value mapping. -/
abbrev CsvRow := List (String × CsvVal)

/-! ## `CONFIG.FIELD_ALIASES` (transcribed from the source) -/

def A_canonical : List String := ["canonical","canonical_name","ingredient","food","item","name"]
def A_alias : List String := ["alias","synonym","alt","alt_name","alias_name"]
def A_calories : List String := ["calories","kcal","energy_kcal","kcal_per100","calories_per100"]
def A_protein_g : List String := ["protein","protein_g","prot_g","protein_per100_g","protein_per100"]
def A_fiber_g : List String := ["fiber","fibre","fiber_g","dietary_fiber_g","fiber_per100_g"]
def A_carbs_g : List String := ["carbs","carbohydrates","carbohydrate_g","net_carb_g","carb_g","carbs_per100_g"]
def A_fat_g : List String := ["fat","fat_g","total_fat_g","fat_per100_g"]
def A_gi : List String := ["gi","glycemic_index","GI"]
def A_gl : List String := ["gl","glycemic_load","GL"]
def A_dii : List String := ["dii","anti-inflammatory_score","inflammatory_index","DII"]
def A_serving_size_g : List String :=
  ["serving_size_g","serving_g","portion_g","default_portion_g","portion_size_g","serving_g_estimate"]

/-! ## `getField`, `num`, `resolvePortionGrams`, `computeMacros` -/

/-- First loop of `getField`: for each candidate in order, find the first
key of the row equal to it case-insensitively and return that key's
value. -/
def getFieldAux {α : Type} (row : List (String × α)) : List String → Option α
  | [] => none
  | cand :: rest =>
    match row.find? (fun kv => jsToLower kv.1 == jsToLower cand) with
    | some kv => some kv.2
    | none => getFieldAux row rest

/-- Function `getField(row, candidates)` from the source: the case-insensitive
candidate scan, then (as in the source) a second scan for a key that is
literally contained in the candidate list. -/
def getField {α : Type} (row : List (String × α)) (candidates : List String) : Option α :=
  match getFieldAux row candidates with
  | some v => some v
  | none =>
    match row.find? (fun kv => candidates.contains kv.1) with
    | some kv => some kv.2
    | none => none

/-- Function `num(row, aliasList)`: `Number(getField(...))` when finite, else null.
`Number(undefined)` is `NaN`, hence `none` when no field matches. -/
def num (row : CsvRow) (aliasList : List String) : Option ℚ :=
  (getField row aliasList).bind jsToNumber

/-- Function `resolvePortionGrams`: the explicit serving size when truthy and
positive, else 100. -/
def resolvePortionGrams (row : CsvRow) : ℚ :=
  match num row A_serving_size_g with
  | some q => if q ≠ 0 ∧ q > 0 then q else 100
  | none => 100

/-- JS global `isFinite` applied to a `num` result, which is either a
finite number or `null`: `isFinite(null)` coerces `null` to `0` and
returns `true`, so it is true in both cases. -/
def jsIsFiniteNum : Option ℚ → Bool
  | some _ => true
  | none => true

/-- JS multiplication `v * scale` where `v` is a `num` result: `null`
coerces to `0`. -/
def jsMulNum (v : Option ℚ) (scale : ℚ) : ℚ := v.getD 0 * scale

structure Macros where
  calories : Option ℚ
  protein_g : Option ℚ
  fiber_g : Option ℚ
  carbs_g : Option ℚ
  fat_g : Option ℚ
  gi : Option ℚ
  gl : Option ℚ
  dii : Option ℚ
deriving DecidableEq, Repr

/-- Function `computeMacros(row, A, portion_g)`.  Each mass field is
`isFinite(x) ? x * scale : null` and `gi`/`dii` are
`isFinite(x) ? x : null`; since `isFinite(null)` is `true` in JS, an
absent mass value is scaled as `0` (not kept as null) and `gi`/`dii` pass
through unchanged. -/
def computeMacros (row : CsvRow) (portion_g : ℚ) : Macros :=
  let calories := num row A_calories
  let protein_g := num row A_protein_g
  let fiber_g := num row A_fiber_g
  let carbs_g := num row A_carbs_g
  let fat_g := num row A_fat_g
  let gi := num row A_gi
  let gl := num row A_gl
  let dii := num row A_dii
  let scale := portion_g / 100
  { calories := if jsIsFiniteNum calories then some (jsMulNum calories scale) else none
    protein_g := if jsIsFiniteNum protein_g then some (jsMulNum protein_g scale) else none
    fiber_g := if jsIsFiniteNum fiber_g then some (jsMulNum fiber_g scale) else none
    carbs_g := if jsIsFiniteNum carbs_g then some (jsMulNum carbs_g scale) else none
    fat_g := if jsIsFiniteNum fat_g then some (jsMulNum fat_g scale) else none
    gi := if jsIsFiniteNum gi then gi else none
    gl := if jsIsFiniteNum gl then some (jsMulNum gl scale) else none
    dii := if jsIsFiniteNum dii then dii else none }

/-! ## `normalizeIngredientLine`

The source applies, in order, five global regex replacements and a final
singularisation:

1. `/(\d+\/\d+)|[¼½¾⅓⅔⅛⅜⅝⅞]|\b\d+(\.\d+)?\b/g → " "`, then `trim`;
2. `\b(unit tokens)\b/g → " "`;
3. `\b(descriptor tokens)\b/g → " "`;
4. `/[^a-z\s\-]/g → " "`;
5. `/\s+/g → " "`, then `trim`;
6. drop a trailing `"es"`, else a trailing `"s"`, then `trim`.

The scanners below implement the regex semantics exactly: at each
position, try the alternatives in order (a `X?` quantifier greedily tries
the longer literal first); on a match, emit one space and resume after the
match (tracking whether the character before the resume position is a word
character, for `\b`); otherwise emit the character and advance one. -/

def takeDigits : List Char → Nat
  | c :: rest => if c.isDigit then takeDigits rest + 1 else 0
  | [] => 0

def vulgarFracs : List Char := ['¼', '½', '¾', '⅓', '⅔', '⅛', '⅜', '⅝', '⅞']

/-- Length of a match of `(\d+\/\d+)|[¼½¾⅓⅔⅛⅜⅝⅞]|\b\d+(\.\d+)?\b` at the
start of `cs` (alternatives tried in order; `prevWord` tells whether the
character before `cs` is a word character, for the `\b` of the third
alternative). -/
def numMatchLen (prevWord : Bool) (cs : List Char) : Option Nat :=
  let d1 := takeDigits cs
  let altA : Option Nat :=
    if d1 > 0 then
      match cs.drop d1 with
      | '/' :: rest2 =>
        let d2 := takeDigits rest2
        if d2 > 0 then some (d1 + 1 + d2) else none
      | _ => none
    else none
  match altA with
  | some n => some n
  | none =>
    match cs with
    | [] => none
    | c :: _ =>
      if vulgarFracs.contains c then some 1
      else if prevWord then none
      else if d1 > 0 then
        let afterD := cs.drop d1
        let withFrac : Option Nat :=
          match afterD with
          | '.' :: rest2 =>
            let d2 := takeDigits rest2
            if d2 > 0 && boundaryAfter (rest2.drop d2) then some (d1 + 1 + d2) else none
          | _ => none
        match withFrac with
        | some n => some n
        | none => if boundaryAfter afterD then some d1 else none
      else none

/-- Global replacement of the numeric pattern by a single space.  The
first argument is the number of already-matched characters still to skip
(so the recursion is structural); while skipping, the word-character
state is updated from each consumed character, which also yields the
correct `\b` context after a match. -/
def replaceNumsGo : Nat → Bool → List Char → List Char
  | _, _, [] => []
  | k + 1, _, c :: rest => replaceNumsGo k (isWordChar c) rest
  | 0, prevWord, c :: rest =>
    match numMatchLen prevWord (c :: rest) with
    | some n => ' ' :: replaceNumsGo (n - 1) (isWordChar c) rest
    | none => c :: replaceNumsGo 0 (isWordChar c) rest

def replaceNums (prevWord : Bool) (cs : List Char) : List Char :=
  replaceNumsGo 0 prevWord cs

/-- Try the word-alternation candidates in order at the start of `cs`;
a candidate matches when it is a literal prefix and is followed by a word
boundary.  Returns the matched length. -/
def tryCands (cs : List Char) : List (List Char) → Option Nat
  | [] => none
  | w :: ws =>
    if w.isPrefixOf cs && boundaryAfter (cs.drop w.length) then some w.length
    else tryCands cs ws

/-- Global replacement of `\b(w₁|w₂|…)\b` by a single space.  All
candidates start and end with a letter, so the leading `\b` holds exactly
when the previous character is not a word character.  As above, the first
argument counts matched characters still to skip. -/
def replaceWordsGo (cands : List (List Char)) : Nat → Bool → List Char → List Char
  | _, _, [] => []
  | k + 1, _, c :: rest => replaceWordsGo cands k (isWordChar c) rest
  | 0, prevWord, c :: rest =>
    if prevWord then c :: replaceWordsGo cands 0 (isWordChar c) rest
    else
      match tryCands (c :: rest) cands with
      | some n => ' ' :: replaceWordsGo cands (n - 1) (isWordChar c) rest
      | none => c :: replaceWordsGo cands 0 (isWordChar c) rest

def replaceWords (cands : List (List Char)) (prevWord : Bool) (cs : List Char) : List Char :=
  replaceWordsGo cands 0 prevWord cs

/-- The unit alternation
`cups?|cup|tbsp|tablespoons?|tbsps?|tsp|teaspoons?|tsps?|oz|ounce|ounces|g|grams?|kg|kilograms?|ml|milliliters?|liter|litre|lbs?|pounds?`
flattened into the order the regex engine tries literals (each `X?`
greedily tries `X`-with-suffix first). -/
def unitCands : List (List Char) :=
  ["cups", "cup", "cup", "tbsp", "tablespoons", "tablespoon", "tbsps", "tbsp",
   "tsp", "teaspoons", "teaspoon", "tsps", "tsp", "oz", "ounce", "ounces",
   "g", "grams", "gram", "kg", "kilograms", "kilogram", "ml", "milliliters",
   "milliliter", "liter", "litre", "lbs", "lb", "pounds", "pound"].map String.toList

/-- The descriptor alternation
`chopped|minced|diced|sliced|ground|fresh|large|small|medium|ripe|raw|cooked|drained|rinsed|packed|peeled|seeded|to taste`. -/
def descCands : List (List Char) :=
  ["chopped", "minced", "diced", "sliced", "ground", "fresh", "large", "small",
   "medium", "ripe", "raw", "cooked", "drained", "rinsed", "packed", "peeled",
   "seeded", "to taste"].map String.toList

/-- Step 4: `/[^a-z\s\-]/g → " "`. -/
def stripChar (c : Char) : Char :=
  if ('a' ≤ c ∧ c ≤ 'z') ∨ c.isWhitespace ∨ c = '-' then c else ' '

theorem dropWhile_length_le {α : Type} (p : α → Bool) (l : List α) :
    (l.dropWhile p).length ≤ l.length := by
  induction l with
  | nil => simp [List.dropWhile]
  | cons a l ih =>
    by_cases h : p a = true <;> simp [List.dropWhile, h]
    exact Nat.le_succ_of_le ih

/-- Step 5: `/\s+/g → " "`.  The flag records whether the scanner is
inside a whitespace run whose first character was already replaced. -/
def collapseWsGo : Bool → List Char → List Char
  | _, [] => []
  | inRun, c :: rest =>
    if c.isWhitespace then
      if inRun then collapseWsGo true rest
      else ' ' :: collapseWsGo true rest
    else c :: collapseWsGo false rest

def collapseWs (cs : List Char) : List Char := collapseWsGo false cs

/-- Step 1 (with its trailing `trim`). -/
def norm1 (s : String) : String := jsTrim (String.mk (replaceNums false s.toList))

/-- Steps 2 and 3 (unit and descriptor removal share the engine). -/
def norm23 (cands : List (List Char)) (s : String) : String :=
  String.mk (replaceWords cands false s.toList)

/-- Step 4. -/
def norm4 (s : String) : String := String.mk (s.toList.map stripChar)

/-- Step 5 (with its trailing `trim`). -/
def norm5 (s : String) : String := jsTrim (String.mk (collapseWs s.toList))

/-- Step 6: drop a trailing `"es"`, else a trailing `"s"`. -/
def norm6 (s : String) : String :=
  if jsEndsWith s "es" then jsDropRight s 2
  else if jsEndsWith s "s" then jsDropRight s 1
  else s

/-- Function `normalizeIngredientLine(line)` from the source: the successive
reassignments of `s`, ending in a final `trim`. -/
def normalizeIngredientLine (line : String) : String :=
  jsTrim (norm6 (norm5 (norm4 (norm23 descCands (norm23 unitCands (norm1 (jsToLower line)))))))

/-! ## `extractIngredientsFromText` -/

/-- Test `/^ingredients\b/i` (the `/i` flag is lowercasing on this ASCII
pattern). -/
def startsWithWordCI (l w : String) : Bool :=
  let lc := (jsToLower l).toList
  w.toList.isPrefixOf lc && boundaryAfter (lc.drop w.toList.length)

def isIngHeader (l : String) : Bool := startsWithWordCI l "ingredients"

/-- Test `/^(directions|instructions|method|steps)\b/i`. -/
def isTerminator (l : String) : Bool :=
  ["directions", "instructions", "method", "steps"].any (startsWithWordCI l)

/-- The character class of `/^[-*•\d.)\]]\s*/`. -/
def isMarkerChar (c : Char) : Bool :=
  c = '-' || c = '*' || c = '•' || c.isDigit || c = '.' || c = ')' || c = ']'

def isBullet (l : String) : Bool :=
  match l.toList with
  | c :: _ => isMarkerChar c
  | [] => false

/-- Strip as `L.replace(/^[-*•\d.)\]]\s*/, "").trim()`: strip one marker character
and the following whitespace run, then trim. -/
def stripMarker (l : String) : String :=
  match l.toList with
  | c :: rest =>
    if isMarkerChar c then jsTrim (String.mk (rest.dropWhile Char.isWhitespace))
    else jsTrim l
  | [] => jsTrim l

/-- Test `/cup|tbsp|tsp|oz|g|gram|ml|lb|teaspoon|tablespoon|ounce|liter|litre|cup/i`:
a case-insensitive substring test. -/
def hasUnitSub (l : String) : Bool :=
  ["cup", "tbsp", "tsp", "oz", "g", "gram", "ml", "lb", "teaspoon",
   "tablespoon", "ounce", "liter", "litre", "cup"].any (jsIncludes (jsToLower l))

/-- Test `/serv(es|ings)|prep time|cook time|yield|nutrition/i`. -/
def isMetaLine (l : String) : Bool :=
  ["serves", "servings", "prep time", "cook time", "yield", "nutrition"].any
    (jsIncludes (jsToLower l))

/-- Count `L.split(" ").length`: one more than the number of spaces. -/
def jsWordCount (l : String) : Nat := l.toList.count ' ' + 1

/-- The scan over the candidate lines: break on a terminator or (for
non-bullet, unit-free lines) a metadata line; accept bullet/unit lines
with the marker stripped, and other lines of at most 8 words. -/
def extractLoop : List String → List String
  | [] => []
  | l :: rest =>
    if l = "" then []
    else if isTerminator l then []
    else if isBullet l || hasUnitSub l then stripMarker l :: extractLoop rest
    else if isMetaLine l then []
    else if jsWordCount l ≤ 8 then l :: extractLoop rest
    else extractLoop rest

/-- The lines the scan starts from: drop everything before the first
`Ingredients` header (no header → start at the first line), and skip the
header line itself when it is one. -/
def extractBody (ls : List String) : List String :=
  match ls.drop ((jsFindIndex isIngHeader ls).getD 0) with
  | [] => []
  | l :: tl => if isIngHeader l then tl else l :: tl

/-- Function `extractIngredientsFromText(text)` from the source: split into
trimmed non-blank lines, start after an `Ingredients` header when
present, scan, and drop empty results. -/
def extractIngredientsFromText (t : String) : List String :=
  if t = "" then []
  else
    (extractLoop (extractBody (((jsSplitLines t).map jsTrim).filter (fun l => l ≠ "")))).filter
      (fun l => l ≠ "")

/-- Interleave newline characters between pieces. -/
def joinNl : List (List Char) → List Char
  | [] => []
  | [cs] => cs
  | cs :: more => cs ++ '\n' :: joinNl more

/-- Join phrases one per line, the input of the re-segmentation claim. -/
def joinLines (ps : List String) : String :=
  String.mk (joinNl (ps.map String.toList))

/-- A phrase on which re-segmentation is stable: trimmed, nonempty, on a
single line, not itself an ingredients-header / terminator line, not
starting with a list-marker character, and accepted by the scan without
alteration (it contains a unit token, or is a short non-metadata line). -/
def stablePhrase (p : String) : Prop :=
  p ≠ "" ∧ jsTrim p = p ∧ '\n' ∉ p.toList ∧ '\r' ∉ p.toList ∧
  isIngHeader p = false ∧ isTerminator p = false ∧ isBullet p = false ∧
  (hasUnitSub p = true ∨ (isMetaLine p = false ∧ jsWordCount p ≤ 8))

instance (p : String) : Decidable (stablePhrase p) := by
  unfold stablePhrase
  infer_instance

/-! ## `buildAliasMapFromRows` and `mapToCanonical` -/

/-- One step of `buildAliasMapFromRows`: skip rows with a falsy alias
field; key is `String(alias).trim().toLowerCase()`, value is
`String(canonical || alias).trim()` (both must be nonempty); a `Map.set`
on a fresh key appends, `Set.add` appends when not present. -/
def buildAliasAux :
    List CsvRow → List (String × String) → List String →
      List (String × String) × List String
  | [], m, s => (m, s)
  | r :: rest, m, s =>
    match getField r A_alias with
    | none => buildAliasAux rest m s
    | some a =>
      if ¬jsTruthy a then buildAliasAux rest m s
      else
        let canonical : CsvVal :=
          match getField r A_canonical with
          | some cv => if jsTruthy cv then cv else a
          | none => a
        let k := jsToLower (jsTrim (jsString a))
        let v := jsTrim (jsString canonical)
        if k = "" ∨ v = "" then buildAliasAux rest m s
        else
          buildAliasAux rest
            (if assocGet m k = none then m ++ [(k, v)] else m)
            (if s.contains (jsToLower v) then s else s ++ [jsToLower v])

/-- Function `buildAliasMapFromRows(rows)`: the alias → canonical map and the
lowercased canonical set, in insertion order. -/
def buildAliasMapFromRows (rows : List CsvRow) :
    List (String × String) × List String :=
  buildAliasAux rows [] []

/-- A `Map.get` whose result is then tested for truthiness (`if (hit)`):
an empty-string value behaves like a miss. -/
def truthyGet (m : List (String × String)) (k : String) : Option String :=
  match assocGet m k with
  | some v => if v = "" then none else some v
  | none => none

/-- The tier-2 loop of `mapToCanonical`: for `i = 0, 1, …` look up the
suffix of the parts starting at `i` (the first argument is that suffix
itself, so the recursion is structural); a falsy (empty) map value is not
a hit. -/
def suffixLoop (aliasMap : List (String × String)) : List String → Nat → Option (String × ℚ)
  | [], _ => none
  | p :: restParts, i =>
    match truthyGet aliasMap (" ".intercalate (p :: restParts)) with
    | some hit => some (hit, 9/10 - (i : ℚ) * (1/20))
    | none => suffixLoop aliasMap restParts (i + 1)

/-- Update `!best || conf > best.confidence` of the tier-4 loop. -/
def betterCand (best : Option (String × ℚ)) (c : String) (conf : ℚ) :
    Option (String × ℚ) :=
  match best with
  | none => some (c, conf)
  | some b => if conf > b.2 then some (c, conf) else some b

/-- The score `Math.min(0.9, 0.55 + c.length / Math.max(8, norm.length))`
of a tier-4 containment candidate. -/
def mainMatchConf (norm c : String) : ℚ :=
  min (9/10 : ℚ) (11/20 + (c.length : ℚ) / (max 8 norm.length : ℚ))

/-- The tier-4 loop: scan the main canonical universe in insertion order,
keeping the strictly best-scoring containment candidate. -/
def bestMainMatch (norm : String) : List String → Option (String × ℚ) → Option (String × ℚ)
  | [], best => best
  | c :: rest, best =>
    if norm = c ∨ jsEndsWith norm (" " ++ c) ∨ jsStartsWith norm (c ++ " ") ∨
        jsIncludes norm c then
      bestMainMatch norm rest (betterCand best c (mainMatchConf norm c))
    else bestMainMatch norm rest best

/-- The tier-5 loop over the alias-source canonical set: the first
element that is equal to (0.75) or contained in (0.65) the phrase. -/
def aliasCanonLoop (norm : String) : List String → Option (String × ℚ)
  | [] => none
  | c :: rest =>
    if norm = c then some (c, 3/4)
    else if jsIncludes norm c then some (c, 13/20)
    else aliasCanonLoop norm rest

/-- The fallback tiers 4–5 of `mapToCanonical`: the main canonical
universe (exact membership 0.95, else best containment), then the
alias-source canonical set. -/
def canonTiers (norm : String) (aliasCanonLower mainCanonLower : List String) :
    Option (String × ℚ) :=
  match
    (if mainCanonLower ≠ [] then
      (if mainCanonLower.contains norm then some (norm, 19/20)
       else bestMainMatch norm mainCanonLower none)
     else none)
  with
  | some b => some b
  | none =>
    if aliasCanonLower ≠ [] then aliasCanonLoop norm aliasCanonLower else none

/-- Function `mapToCanonical(norm, aliasMap, aliasCanonLower, mainCanonLower)` from
the source: exact alias lookup (1.0), progressive right-truncation
(`0.9 − 0.05·i`), alias containment (0.6), then the main canonical
universe (exact 0.95, containment `min(0.9, 0.55 + |c|/max(8, |norm|))`),
then the alias-source canonical set (0.75 / 0.65).  A falsy (empty
string) map value does not count as a hit. -/
def mapToCanonical (norm : String) (aliasMap : List (String × String))
    (aliasCanonLower mainCanonLower : List String) : Option (String × ℚ) :=
  if norm = "" then none
  else if aliasMap ≠ [] then
    match truthyGet aliasMap norm with
    | some direct => some (direct, 1)
    | none =>
      match suffixLoop aliasMap ((jsSplitSpace norm).filter (fun p => p ≠ "")) 0 with
      | some hit => some hit
      | none =>
        match aliasMap.find? (fun p => jsIncludes norm p.1) with
        | some p => some (p.2, 3/5)
        | none => canonTiers norm aliasCanonLower mainCanonLower
  else canonTiers norm aliasCanonLower mainCanonLower

/-! ## Mention mapping, per-ingredient rows and report totals
(`buildAllTables`, lines 384–426 of the source) -/

structure Mention where
  src : String
  canonical : Option String
  confidence : ℚ
deriving DecidableEq, Repr

/-- JS `a || b` on strings. -/
def jsOrStr (a b : String) : String := if a = "" then b else a

/-- The mention built for one line with a nonempty normalization:
resolve, harmonizing the display case against the main-index keys, or
keep the line as an unresolved mention with confidence 0. -/
def resolvedMention (aliasMap : List (String × String))
    (aliasCanonLower mainCanonLower mainIdxKeys : List String) (raw : String) :
    Mention :=
  match mapToCanonical (normalizeIngredientLine raw) aliasMap aliasCanonLower mainCanonLower with
  | some m =>
    let display :=
      (mainIdxKeys.find? (fun key => jsToLower key == jsToLower m.1)).getD m.1
    { src := raw, canonical := some display, confidence := m.2 }
  | none => { src := raw, canonical := none, confidence := 0 }

/-- The body of the mapping loop for one raw line: lines whose
normalization is empty yield no mention (`if (!norm) continue`). -/
def mentionOf (aliasMap : List (String × String))
    (aliasCanonLower mainCanonLower mainIdxKeys : List String) (raw : String) :
    Option Mention :=
  if normalizeIngredientLine raw = "" then none
  else some (resolvedMention aliasMap aliasCanonLower mainCanonLower mainIdxKeys raw)

/-- The mapping loop of `buildAllTables`: one mention per line, except
that lines whose normalization is empty are skipped (`if (!norm)
continue`). -/
def buildMapped (raws : List String) (aliasMap : List (String × String))
    (aliasCanonLower mainCanonLower mainIdxKeys : List String) : List Mention :=
  match raws with
  | [] => []
  | raw :: rest =>
    match mentionOf aliasMap aliasCanonLower mainCanonLower mainIdxKeys raw with
    | some m => m :: buildMapped rest aliasMap aliasCanonLower mainCanonLower mainIdxKeys
    | none => buildMapped rest aliasMap aliasCanonLower mainCanonLower mainIdxKeys

/-- First row of `mainIdx.get(m.canonical)` together with its resolved
portion, or `none` when the mention is unresolved (`m.canonical` falsy)
or has no rows. -/
def mainRowOf (mainIdx : List (String × List CsvRow)) (m : Mention) :
    Option (CsvRow × ℚ) :=
  match m.canonical with
  | some c =>
    if c ≠ "" then
      match assocGet mainIdx c with
      | some (r :: _) => some (r, resolvePortionGrams r)
      | _ => none
    else none
  | none => none

def emptyMacros : Macros :=
  { calories := none, protein_g := none, fiber_g := none, carbs_g := none
    fat_g := none, gi := none, gl := none, dii := none }

structure PerIngRow where
  ingredient : String
  canonical : String
  portion_g : Option ℚ
  macros : Macros
deriving DecidableEq, Repr

/-- One per-ingredient row of Table 1: the computed macros when a main
record exists, else the all-null row with canonical
`m.canonical || "Unmapped"`. -/
def perIngRowOf (mainIdx : List (String × List CsvRow)) (m : Mention) : PerIngRow :=
  match mainRowOf mainIdx m with
  | some (r, p) =>
    { ingredient := m.src, canonical := (m.canonical).getD "",
      portion_g := some p, macros := computeMacros r p }
  | none =>
    { ingredient := m.src, canonical := jsOrStr ((m.canonical).getD "") "Unmapped",
      portion_g := none, macros := emptyMacros }

def buildPerIngredient (mapped : List Mention) (mainIdx : List (String × List CsvRow)) :
    List PerIngRow :=
  mapped.map (perIngRowOf mainIdx)

structure Totals where
  calories : ℚ
  protein_g : ℚ
  fiber_g : ℚ
  carbs_g : ℚ
  fat_g : ℚ
  gl : ℚ
  giWeightedCarb : ℚ
  totalCarbForGI : ℚ
  diiWeightedMass : ℚ
  totalMassForDII : ℚ
deriving DecidableEq, Repr

def zeroTotals : Totals :=
  { calories := 0, protein_g := 0, fiber_g := 0, carbs_g := 0, fat_g := 0, gl := 0
    giWeightedCarb := 0, totalCarbForGI := 0, diiWeightedMass := 0, totalMassForDII := 0 }

/-- One iteration of the totals loop: each `total.x += mac.x` guarded by
`mac.x != null`, the GI accumulators guarded by
`mac.gi != null && mac.carbs_g != null`, and the DII accumulators by
`mac.dii != null` (`portion_g` is never null). -/
def totalsStep (t : Totals) (mac : Macros) (portion_g : ℚ) : Totals :=
  { calories := match mac.calories with | some v => t.calories + v | none => t.calories
    protein_g := match mac.protein_g with | some v => t.protein_g + v | none => t.protein_g
    fiber_g := match mac.fiber_g with | some v => t.fiber_g + v | none => t.fiber_g
    carbs_g := match mac.carbs_g with | some v => t.carbs_g + v | none => t.carbs_g
    fat_g := match mac.fat_g with | some v => t.fat_g + v | none => t.fat_g
    gl := match mac.gl with | some v => t.gl + v | none => t.gl
    giWeightedCarb :=
      match mac.gi, mac.carbs_g with
      | some g, some cb => t.giWeightedCarb + g * cb
      | _, _ => t.giWeightedCarb
    totalCarbForGI :=
      match mac.gi, mac.carbs_g with
      | some _, some cb => t.totalCarbForGI + cb
      | _, _ => t.totalCarbForGI
    diiWeightedMass :=
      match mac.dii with
      | some d => t.diiWeightedMass + d * portion_g
      | none => t.diiWeightedMass
    totalMassForDII :=
      match mac.dii with
      | some _ => t.totalMassForDII + portion_g
      | none => t.totalMassForDII }

/-- The totals loop of `buildAllTables`: mentions without a main record
are skipped (`continue`). -/
def buildTotalsAux (mainIdx : List (String × List CsvRow)) :
    List Mention → Totals → Totals
  | [], t => t
  | m :: rest, t =>
    match mainRowOf mainIdx m with
    | some (r, p) => buildTotalsAux mainIdx rest (totalsStep t (computeMacros r p) p)
    | none => buildTotalsAux mainIdx rest t

def buildTotals (mapped : List Mention) (mainIdx : List (String × List CsvRow)) : Totals :=
  buildTotalsAux mainIdx mapped zeroTotals

/-- Expression `overallGI = totalCarbForGI > 0 ? giWeightedCarb / totalCarbForGI : null`. -/
def overallGI (t : Totals) : Option ℚ :=
  if t.totalCarbForGI > 0 then some (t.giWeightedCarb / t.totalCarbForGI) else none

/-- Expression `overallDII = totalMassForDII > 0 ? diiWeightedMass / totalMassForDII : null`. -/
def overallDII (t : Totals) : Option ℚ :=
  if t.totalMassForDII > 0 then some (t.diiWeightedMass / t.totalMassForDII) else none

/-! Reference sums used to state the aggregation claims: for a metric,
the mentions contributing to it are exactly those with a main record and
a present raw value. -/

/-- The (main record, portion) pairs of the resolved mentions, in order. -/
def rowPortions (mainIdx : List (String × List CsvRow)) (mapped : List Mention) :
    List (CsvRow × ℚ) :=
  mapped.filterMap (mainRowOf mainIdx)

/-- Portion-scaled values of one metric over the mentions where it is
present. -/
def presentScaled (aliasList : List String) (pairs : List (CsvRow × ℚ)) : List ℚ :=
  pairs.filterMap (fun rp => (num rp.1 aliasList).map (· * (rp.2 / 100)))

/-- Scaled carbs of the mentions where GI and carbs are both present. -/
def giCarbTerms (pairs : List (CsvRow × ℚ)) : List ℚ :=
  pairs.filterMap (fun rp =>
    match num rp.1 A_gi, num rp.1 A_carbs_g with
    | some _, some cb => some (cb * (rp.2 / 100))
    | _, _ => none)

/-- Terms `GI · scaled carbs` of the mentions where GI and carbs are both
present. -/
def giWeightTerms (pairs : List (CsvRow × ℚ)) : List ℚ :=
  pairs.filterMap (fun rp =>
    match num rp.1 A_gi, num rp.1 A_carbs_g with
    | some g, some cb => some (g * (cb * (rp.2 / 100)))
    | _, _ => none)

/-- Modelled from the spec (§4.5): “overall glycemic index →
Σ(GI_i · carbs_i) / Σ(carbs_i); undefined (null) if the carbs sum is
zero”, the sums ranging over the mentions whose GI and carbs are both
present.  Used to compare the code's overall GI with the claimed one. -/
def specOverallGlycemicIndex (mapped : List Mention)
    (mainIdx : List (String × List CsvRow)) : Option ℚ :=
  let pairs := rowPortions mainIdx mapped
  let s := (giCarbTerms pairs).sum
  if s = 0 then none else some ((giWeightTerms pairs).sum / s)

/-- Terms `DII · portion` of the mentions where DII is present. -/
def diiWeightTermsL (pairs : List (CsvRow × ℚ)) : List ℚ :=
  pairs.filterMap (fun rp => (num rp.1 A_dii).map (fun d => d * rp.2))

/-- Portions of the mentions where DII is present. -/
def diiMassTerms (pairs : List (CsvRow × ℚ)) : List ℚ :=
  pairs.filterMap (fun rp => (num rp.1 A_dii).map (fun _ => rp.2))

/-! ### Concrete example data for the aggregation claims -/

/-- Three resolved mentions, as in the spec's weighted-GI and
missing-calorie examples: calories `[100, null, 250]`, carbs
`[10, null, 20]`, GI `[50, 80, 70]`. -/
def exampleMapped : List Mention :=
  [⟨"a", some "a", 1⟩, ⟨"b", some "b", 1⟩, ⟨"c", some "c", 1⟩]

def exRowA : CsvRow :=
  [("calories", CsvVal.vnum 100), ("gi", CsvVal.vnum 50), ("carbs", CsvVal.vnum 10)]

def exRowB : CsvRow := [("gi", CsvVal.vnum 80)]

def exRowC : CsvRow :=
  [("calories", CsvVal.vnum 250), ("gi", CsvVal.vnum 70), ("carbs", CsvVal.vnum 20)]

def exampleIdx : List (String × List CsvRow) :=
  [("a", [exRowA]), ("b", [exRowB]), ("c", [exRowC])]

/-- One resolved mention whose record carries a negative carbs value. -/
def giNegMapped : List Mention := [⟨"x", some "x", 1⟩]

def giNegRow : CsvRow := [("gi", CsvVal.vnum 50), ("carbs", CsvVal.vnum (-10))]

def giNegIdx : List (String × List CsvRow) := [("x", [giNegRow])]

/-! ## The diet-compatibility verdict (Table 3) -/

def yesValues : List String := ["y", "yes", "true", "1"]

/-- Normalization `String(v || "").trim().toLowerCase()` for the looked-up diet cell
(`none` models `undefined`). -/
def dietVStr (v : Option CsvVal) : String :=
  match v with
  | none => ""
  | some v => if jsTruthy v then jsToLower (jsTrim (jsString v)) else ""

/-- The diet rows consulted for a per-ingredient row:
`dietIdx.get(r.canonical || "") || []`. -/
def dietRowsFor (dietIdx : List (String × List CsvRow)) (r : PerIngRow) : List CsvRow :=
  (assocGet dietIdx (jsOrStr r.canonical "")).getD []

/-- The normalized diet-cell string for a row, when it has diet records. -/
def dietValStr (dietIdx : List (String × List CsvRow)) (dietName : String)
    (r : PerIngRow) : Option String :=
  match dietRowsFor dietIdx r with
  | [] => none
  | r0 :: _ => some (dietVStr (getField r0 [dietName]))

/-- A row explicitly marked incompatible: it has diet records and the
cell value is a nonempty string other than `y`/`yes`/`true`/`1`. -/
def isIncompat (dietIdx : List (String × List CsvRow)) (dietName : String)
    (r : PerIngRow) : Bool :=
  match dietValStr dietIdx dietName r with
  | some s => s ≠ "" && !(yesValues.contains s)
  | none => false

/-- A row with unknown compatibility: no diet records, or an empty cell
value. -/
def isUnknownDiet (dietIdx : List (String × List CsvRow)) (dietName : String)
    (r : PerIngRow) : Bool :=
  match dietValStr dietIdx dietName r with
  | some s => s = ""
  | none => true

structure DietFlags where
  anyNo : Bool
  anyUnknown : Bool
  offenders : List String
deriving DecidableEq, Repr

/-- One iteration of the verdict loop of Table 3. -/
def dietStep (dietIdx : List (String × List CsvRow)) (dietName : String)
    (fl : DietFlags) (r : PerIngRow) : DietFlags :=
  match dietRowsFor dietIdx r with
  | [] => { fl with anyUnknown := true }
  | r0 :: _ =>
    let vStr := dietVStr (getField r0 [dietName])
    if vStr = "" then { fl with anyUnknown := true }
    else if yesValues.contains vStr then fl
    else { fl with anyNo := true, offenders := fl.offenders ++ [r.ingredient] }

/-- The per-diet-tag verdict: `No` (with the offenders) when any row is
explicitly incompatible, else `Likely` when any row is unknown, else
`Yes`. -/
def dietVerdict (dietIdx : List (String × List CsvRow)) (dietName : String)
    (perIngredient : List PerIngRow) : String × List String :=
  let fl := perIngredient.foldl (dietStep dietIdx dietName) ⟨false, false, []⟩
  (if fl.anyNo then "No" else if fl.anyUnknown then "Likely" else "Yes", fl.offenders)

/-! ## Helper lemmas -/

theorem getFieldAux_eq_none {α : Type} (row : List (String × α)) (cands : List String) :
    getFieldAux row cands = none ↔
      ∀ c ∈ cands, row.find? (fun p => jsToLower p.1 == jsToLower c) = none := by
  induction cands with
  | nil => simp [getFieldAux]
  | cons c rest ih =>
    simp only [getFieldAux]
    cases h : row.find? (fun p => jsToLower p.1 == jsToLower c) with
    | some kv =>
      simp only [List.mem_cons]
      constructor
      · intro hfalse; cases hfalse
      · intro hall
        have := hall c (Or.inl rfl)
        rw [h] at this; cases this
    | none =>
      simp only [ih]
      constructor
      · intro hall c' hc'
        rcases List.mem_cons.mp hc' with rfl | hmem
        · exact h
        · exact hall c' hmem
      · intro hall c' hc'
        exact hall c' (List.mem_cons_of_mem _ hc')

theorem getField_eq_none_iff {α : Type} (row : List (String × α)) (cands : List String) :
    getField row cands = none ↔
      ∀ c ∈ cands, ∀ kv ∈ row, jsToLower kv.1 ≠ jsToLower c := by
  have hbridge : ∀ c, (row.find? (fun p => jsToLower p.1 == jsToLower c) = none ↔
      ∀ kv ∈ row, jsToLower kv.1 ≠ jsToLower c) := by
    intro c
    rw [List.find?_eq_none]
    simp only [beq_iff_eq]
  constructor
  · intro hnone c hc kv hkv
    unfold getField at hnone
    cases haux : getFieldAux row cands with
    | some v => rw [haux] at hnone; cases hnone
    | none =>
      have := (getFieldAux_eq_none row cands).mp haux c hc
      exact ((hbridge c).mp this) kv hkv
  · intro hall
    have haux : getFieldAux row cands = none :=
      (getFieldAux_eq_none row cands).mpr fun c hc => (hbridge c).mpr (hall c hc)
    have hsecond : row.find? (fun kv => cands.contains kv.1) = none := by
      rw [List.find?_eq_none]
      intro kv hkv hcontains
      have hmem : kv.1 ∈ cands := by simpa using hcontains
      exact hall kv.1 hmem kv hkv rfl
    unfold getField
    rw [haux, hsecond]

theorem getFieldAux_first_hit {α : Type} (row : List (String × α))
    (cs₁ cs₂ : List String) (cand : String) (kv : String × α)
    (hmiss : ∀ c ∈ cs₁, row.find? (fun p => jsToLower p.1 == jsToLower c) = none)
    (hhit : row.find? (fun p => jsToLower p.1 == jsToLower cand) = some kv) :
    getFieldAux row (cs₁ ++ cand :: cs₂) = some kv.2 := by
  induction cs₁ with
  | nil => simp [getFieldAux, hhit]
  | cons c rest ih =>
    have hc : row.find? (fun p => jsToLower p.1 == jsToLower c) = none :=
      hmiss c (by simp)
    simp only [List.cons_append, getFieldAux, hc]
    exact ih fun c' hc' => hmiss c' (List.mem_cons_of_mem _ hc')

/-- C10: field lookup returns the value under the first candidate in the
list that matches some column name case-insensitively — when a record
carries several synonym columns, the earlier-listed candidate wins
regardless of the column order — and `undefined` is returned exactly when
no candidate matches any column. -/
theorem getField_first_candidate_wins {α : Type} (row : List (String × α))
    (cands : List String) :
    (getField row cands = none ↔
      ∀ c ∈ cands, ∀ kv ∈ row, jsToLower kv.1 ≠ jsToLower c) ∧
    (∀ (cs₁ cs₂ : List String) (cand : String) (kv : String × α),
      cands = cs₁ ++ cand :: cs₂ →
      (∀ c ∈ cs₁, row.find? (fun p => jsToLower p.1 == jsToLower c) = none) →
      row.find? (fun p => jsToLower p.1 == jsToLower cand) = some kv →
      getField row cands = some kv.2) := by
  refine ⟨getField_eq_none_iff row cands, ?_⟩
  intro cs₁ cs₂ cand kv hsplit hmiss hhit
  subst hsplit
  unfold getField
  rw [getFieldAux_first_hit row cs₁ cs₂ cand kv hmiss hhit]

/-- C10 witness: with columns `Kcal` then `calories`, the earlier-listed
candidate `calories` wins even though the `Kcal` column comes first. -/
theorem getField_first_candidate_wins_witness :
    getField [("Kcal", CsvVal.vnum 1), ("calories", CsvVal.vnum 2)] A_calories
      = some (CsvVal.vnum 2) :=
  (getField_first_candidate_wins
      [("Kcal", CsvVal.vnum 1), ("calories", CsvVal.vnum 2)] A_calories).2
    [] ["kcal", "energy_kcal", "kcal_per100", "calories_per100"] "calories"
    ("calories", CsvVal.vnum 2) (by decide) (by decide) (by decide)

/-- C4: for every record and portion `p`, the per-mention profile scales
each present mass-based value (calories, protein, fiber, carbs, fat,
glycemic load) by exactly `p/100`, while glycemic index and inflammatory
index equal the record's raw value whenever present. -/
theorem computeMacros_portion_scaling (row : CsvRow) (p : ℚ) :
    (∀ v, num row A_calories = some v → (computeMacros row p).calories = some (v * (p / 100))) ∧
    (∀ v, num row A_protein_g = some v → (computeMacros row p).protein_g = some (v * (p / 100))) ∧
    (∀ v, num row A_fiber_g = some v → (computeMacros row p).fiber_g = some (v * (p / 100))) ∧
    (∀ v, num row A_carbs_g = some v → (computeMacros row p).carbs_g = some (v * (p / 100))) ∧
    (∀ v, num row A_fat_g = some v → (computeMacros row p).fat_g = some (v * (p / 100))) ∧
    (∀ v, num row A_gl = some v → (computeMacros row p).gl = some (v * (p / 100))) ∧
    (∀ v, num row A_gi = some v → (computeMacros row p).gi = some v) ∧
    (∀ v, num row A_dii = some v → (computeMacros row p).dii = some v) := by
  refine ⟨?_, ?_, ?_, ?_, ?_, ?_, ?_, ?_⟩ <;>
    · intro v hv
      simp [computeMacros, jsIsFiniteNum, jsMulNum, hv]

/-- C4 witness: a record with all fields present, portion 50 (scale 1/2). -/
theorem computeMacros_portion_scaling_witness :
    (computeMacros [("calories", CsvVal.vnum 200), ("gi", CsvVal.vnum 40),
        ("dii", CsvVal.vnum (-1)), ("gl", CsvVal.vnum 12)] 50).calories = some 100 ∧
    (computeMacros [("calories", CsvVal.vnum 200), ("gi", CsvVal.vnum 40),
        ("dii", CsvVal.vnum (-1)), ("gl", CsvVal.vnum 12)] 50).gl = some 6 ∧
    (computeMacros [("calories", CsvVal.vnum 200), ("gi", CsvVal.vnum 40),
        ("dii", CsvVal.vnum (-1)), ("gl", CsvVal.vnum 12)] 50).gi = some 40 ∧
    (computeMacros [("calories", CsvVal.vnum 200), ("gi", CsvVal.vnum 40),
        ("dii", CsvVal.vnum (-1)), ("gl", CsvVal.vnum 12)] 50).dii = some (-1) := by
  refine ⟨?_, ?_, ?_, ?_⟩
  · have h := (computeMacros_portion_scaling [("calories", CsvVal.vnum 200),
      ("gi", CsvVal.vnum 40), ("dii", CsvVal.vnum (-1)), ("gl", CsvVal.vnum 12)] 50).1
    have := h 200 (by decide)
    rw [this]; norm_num
  · have h := (computeMacros_portion_scaling [("calories", CsvVal.vnum 200),
      ("gi", CsvVal.vnum 40), ("dii", CsvVal.vnum (-1)), ("gl", CsvVal.vnum 12)] 50).2.2.2.2.2.1
    have := h 12 (by decide)
    rw [this]; norm_num
  · exact (computeMacros_portion_scaling [("calories", CsvVal.vnum 200),
      ("gi", CsvVal.vnum 40), ("dii", CsvVal.vnum (-1)), ("gl", CsvVal.vnum 12)] 50).2.2.2.2.2.2.1
      40 (by decide)
  · exact (computeMacros_portion_scaling [("calories", CsvVal.vnum 200),
      ("gi", CsvVal.vnum 40), ("dii", CsvVal.vnum (-1)), ("gl", CsvVal.vnum 12)] 50).2.2.2.2.2.2.2
      (-1) (by decide)

/-- Every entry of an alias map built by `buildAliasMapFromRows` has a
nonempty key and a nonempty value (the builder skips rows where either is
empty). -/
theorem buildAliasAux_entries (rows : List CsvRow) :
    ∀ (m : List (String × String)) (s : List String) (kv : String × String),
      kv ∈ (buildAliasAux rows m s).1 → kv ∈ m ∨ (kv.1 ≠ "" ∧ kv.2 ≠ "") := by
  induction rows with
  | nil => intro m s kv h; exact Or.inl h
  | cons r rest ih =>
    intro m s kv h
    simp only [buildAliasAux] at h
    cases hget : getField r A_alias with
    | none =>
      rw [hget] at h
      exact ih m s kv h
    | some a =>
      rw [hget] at h
      by_cases htr : jsTruthy a
      · simp only [htr, not_true, if_neg, ite_false, not_false_iff, if_pos] at h
        set k := jsToLower (jsTrim (jsString a)) with hk
        set v := jsTrim (jsString (match getField r A_canonical with
          | some cv => if jsTruthy cv then cv else a
          | none => a)) with hv
        by_cases hempty : k = "" ∨ v = ""
        · rw [if_pos hempty] at h
          exact ih m s kv h
        · rw [if_neg hempty] at h
          push_neg at hempty
          rcases ih _ _ kv h with hmem | hgood
          · by_cases hhas : assocGet m k = none
            · rw [if_pos hhas] at hmem
              rcases List.mem_append.mp hmem with hold | hnew
              · exact Or.inl hold
              · rcases List.mem_singleton.mp hnew with rfl
                exact Or.inr ⟨hempty.1, hempty.2⟩
            · rw [if_neg hhas] at hmem
              exact Or.inl hmem
          · exact Or.inr hgood
      · simp only [htr] at h
        exact ih m s kv h

theorem assocGet_mem {α : Type} {m : List (String × α)} {k : String} {v : α}
    (h : assocGet m k = some v) : (k, v) ∈ m := by
  unfold assocGet at h
  cases hfind : m.find? (fun kv => kv.1 == k) with
  | none => rw [hfind] at h; cases h
  | some kv =>
    rw [hfind] at h
    have hmem := List.mem_of_find?_eq_some hfind
    have hpred := List.find?_some hfind
    have hkey : kv.1 = k := by simpa using hpred
    have hval : kv.2 = v := by simpa using h
    have : kv = (k, v) := by
      cases kv; simp_all
    rwa [this] at hmem

/-- C2: for every normalized phrase that has an entry in an alias table
built by `buildAliasMapFromRows`, the resolver returns that entry's
canonical identity with confidence 1.0, for any canonical universe —
tier order, not raw score, decides the winner. -/
theorem mapToCanonical_alias_precedence (rows : List CsvRow) (norm canon : String)
    (aliasCanonLower mainCanonLower : List String)
    (hentry : assocGet (buildAliasMapFromRows rows).1 norm = some canon) :
    mapToCanonical norm (buildAliasMapFromRows rows).1 aliasCanonLower mainCanonLower
      = some (canon, 1) := by
  have hmem : (norm, canon) ∈ (buildAliasMapFromRows rows).1 := assocGet_mem hentry
  have hgood : norm ≠ "" ∧ canon ≠ "" := by
    rcases buildAliasAux_entries rows [] [] (norm, canon) hmem with hfalse | hg
    · cases hfalse
    · exact hg
  have hne : (buildAliasMapFromRows rows).1 ≠ [] := by
    intro hnil
    rw [hnil] at hmem
    cases hmem
  unfold mapToCanonical
  rw [if_neg hgood.1, if_pos hne]
  unfold truthyGet
  rw [hentry]
  simp [hgood.2]

/-- C2 witness: the alias entry wins with confidence 1.0 even though the
canonical universe contains the phrase exactly (a tier-4 match scoring
0.95). -/
theorem mapToCanonical_alias_precedence_witness :
    mapToCanonical "soy sauce"
        (buildAliasMapFromRows
          [[("alias", CsvVal.vstr "soy sauce"), ("canonical", CsvVal.vstr "Soy Sauce")]]).1
        [] ["soy sauce"]
      = some ("Soy Sauce", 1) :=
  mapToCanonical_alias_precedence
    [[("alias", CsvVal.vstr "soy sauce"), ("canonical", CsvVal.vstr "Soy Sauce")]]
    "soy sauce" "Soy Sauce" [] ["soy sauce"] (by decide)

/-- Closed form of one verdict-loop step in terms of the
incompatible/unknown predicates. -/
theorem dietStep_spec (dietIdx : List (String × List CsvRow)) (dietName : String)
    (fl : DietFlags) (r : PerIngRow) :
    dietStep dietIdx dietName fl r =
      { anyNo := fl.anyNo || isIncompat dietIdx dietName r,
        anyUnknown := fl.anyUnknown || isUnknownDiet dietIdx dietName r,
        offenders :=
          fl.offenders ++ (if isIncompat dietIdx dietName r then [r.ingredient] else []) } := by
  unfold dietStep isIncompat isUnknownDiet dietValStr
  cases hrows : dietRowsFor dietIdx r with
  | nil => simp
  | cons r0 rtl =>
    by_cases hempty : dietVStr (getField r0 [dietName]) = ""
    · simp [hempty]
    · by_cases hyes : dietVStr (getField r0 [dietName]) ∈ yesValues
      · simp [hempty, hyes]
      · simp [hempty, hyes]

theorem dietFold_spec (dietIdx : List (String × List CsvRow)) (dietName : String)
    (rows : List PerIngRow) :
    ∀ fl : DietFlags,
      rows.foldl (dietStep dietIdx dietName) fl =
        { anyNo := fl.anyNo || rows.any (isIncompat dietIdx dietName),
          anyUnknown := fl.anyUnknown || rows.any (isUnknownDiet dietIdx dietName),
          offenders :=
            fl.offenders ++
              (rows.filter (isIncompat dietIdx dietName)).map (·.ingredient) } := by
  induction rows with
  | nil => intro fl; simp
  | cons r rest ih =>
    intro fl
    rw [List.foldl_cons, dietStep_spec, ih]
    by_cases hinc : isIncompat dietIdx dietName r <;>
      simp [hinc, List.filter_cons, Bool.or_assoc]

/-- C7: the diet verdict is `No` together with the offending ingredient
names exactly when some row is explicitly marked incompatible; otherwise
`Likely` when some row is unresolved/unknown; otherwise `Yes`.  An
unknown row never overrides an explicit incompatibility. -/
theorem dietVerdict_spec (dietIdx : List (String × List CsvRow)) (dietName : String)
    (perIngredient : List PerIngRow) :
    dietVerdict dietIdx dietName perIngredient =
      (if perIngredient.any (isIncompat dietIdx dietName) then "No"
       else if perIngredient.any (isUnknownDiet dietIdx dietName) then "Likely"
       else "Yes",
       (perIngredient.filter (isIncompat dietIdx dietName)).map (·.ingredient)) := by
  unfold dietVerdict
  rw [dietFold_spec]
  simp

theorem sum_filterMap_cons {α : Type} (f : α → Option ℚ) (a : α) (l : List α) :
    ((a :: l).filterMap f).sum = (f a).getD 0 + (l.filterMap f).sum := by
  cases h : f a <;> simp [List.filterMap_cons, h]

theorem jsIsFiniteNum_true (o : Option ℚ) : jsIsFiniteNum o = true := by
  cases o <;> rfl

theorem map_mul_getD_zero (o : Option ℚ) (sc : ℚ) :
    (o.map (· * sc)).getD 0 = o.getD 0 * sc := by
  cases o <;> simp

/-- Closed form of `computeMacros`: since `isFinite(null)` holds in JS,
every mass field is present (an absent raw value scaled as `0`), and
`gi`/`dii` pass through. -/
theorem computeMacros_fields (row : CsvRow) (p : ℚ) :
    computeMacros row p =
      { calories := some ((num row A_calories).getD 0 * (p / 100)),
        protein_g := some ((num row A_protein_g).getD 0 * (p / 100)),
        fiber_g := some ((num row A_fiber_g).getD 0 * (p / 100)),
        carbs_g := some ((num row A_carbs_g).getD 0 * (p / 100)),
        fat_g := some ((num row A_fat_g).getD 0 * (p / 100)),
        gi := num row A_gi,
        gl := some ((num row A_gl).getD 0 * (p / 100)),
        dii := num row A_dii } := by
  simp [computeMacros, jsIsFiniteNum_true, jsMulNum]

/-- Closed form of one totals-loop step. -/
theorem totalsStep_closed (t : Totals) (r : CsvRow) (p : ℚ) :
    totalsStep t (computeMacros r p) p =
      { calories := t.calories + (num r A_calories).getD 0 * (p / 100),
        protein_g := t.protein_g + (num r A_protein_g).getD 0 * (p / 100),
        fiber_g := t.fiber_g + (num r A_fiber_g).getD 0 * (p / 100),
        carbs_g := t.carbs_g + (num r A_carbs_g).getD 0 * (p / 100),
        fat_g := t.fat_g + (num r A_fat_g).getD 0 * (p / 100),
        gl := t.gl + (num r A_gl).getD 0 * (p / 100),
        giWeightedCarb := t.giWeightedCarb +
          (match num r A_gi with
           | some g => g * ((num r A_carbs_g).getD 0 * (p / 100))
           | none => 0),
        totalCarbForGI := t.totalCarbForGI +
          (match num r A_gi with
           | some _ => (num r A_carbs_g).getD 0 * (p / 100)
           | none => 0),
        diiWeightedMass := t.diiWeightedMass +
          (match num r A_dii with
           | some d => d * p
           | none => 0),
        totalMassForDII := t.totalMassForDII +
          (match num r A_dii with
           | some _ => p
           | none => 0) } := by
  rw [computeMacros_fields]
  unfold totalsStep
  rcases num r A_gi with _ | g <;> rcases num r A_dii with _ | d <;> simp

theorem presentScaled_cons_sum (al : List String) (r : CsvRow) (p : ℚ)
    (pairs : List (CsvRow × ℚ)) :
    (presentScaled al ((r, p) :: pairs)).sum
      = (num r al).getD 0 * (p / 100) + (presentScaled al pairs).sum := by
  rcases h : num r al with _ | v <;> simp [presentScaled, List.filterMap_cons, h]

theorem giWeightTerms_cons_sum (r : CsvRow) (p : ℚ) (pairs : List (CsvRow × ℚ)) :
    (giWeightTerms ((r, p) :: pairs)).sum
      = (match num r A_gi with
         | some g => g * ((num r A_carbs_g).getD 0 * (p / 100))
         | none => 0) + (giWeightTerms pairs).sum := by
  rcases hgi : num r A_gi with _ | g <;> rcases hcb : num r A_carbs_g with _ | cb <;>
    simp [giWeightTerms, List.filterMap_cons, hgi, hcb]

theorem giCarbTerms_cons_sum (r : CsvRow) (p : ℚ) (pairs : List (CsvRow × ℚ)) :
    (giCarbTerms ((r, p) :: pairs)).sum
      = (match num r A_gi with
         | some _ => (num r A_carbs_g).getD 0 * (p / 100)
         | none => 0) + (giCarbTerms pairs).sum := by
  rcases hgi : num r A_gi with _ | g <;> rcases hcb : num r A_carbs_g with _ | cb <;>
    simp [giCarbTerms, List.filterMap_cons, hgi, hcb]

theorem diiWeightTermsL_cons_sum (r : CsvRow) (p : ℚ) (pairs : List (CsvRow × ℚ)) :
    (diiWeightTermsL ((r, p) :: pairs)).sum
      = (match num r A_dii with
         | some d => d * p
         | none => 0) + (diiWeightTermsL pairs).sum := by
  rcases hdii : num r A_dii with _ | d <;> simp [diiWeightTermsL, List.filterMap_cons, hdii]

theorem diiMassTerms_cons_sum (r : CsvRow) (p : ℚ) (pairs : List (CsvRow × ℚ)) :
    (diiMassTerms ((r, p) :: pairs)).sum
      = (match num r A_dii with
         | some _ => p
         | none => 0) + (diiMassTerms pairs).sum := by
  rcases hdii : num r A_dii with _ | d <;> simp [diiMassTerms, List.filterMap_cons, hdii]

/-- Closed form of the totals loop: every accumulator equals its starting
value plus the corresponding reference sum over the resolved mentions. -/
theorem buildTotalsAux_spec (mainIdx : List (String × List CsvRow)) (mapped : List Mention) :
    ∀ t : Totals,
      buildTotalsAux mainIdx mapped t =
        { calories := t.calories + (presentScaled A_calories (rowPortions mainIdx mapped)).sum,
          protein_g := t.protein_g + (presentScaled A_protein_g (rowPortions mainIdx mapped)).sum,
          fiber_g := t.fiber_g + (presentScaled A_fiber_g (rowPortions mainIdx mapped)).sum,
          carbs_g := t.carbs_g + (presentScaled A_carbs_g (rowPortions mainIdx mapped)).sum,
          fat_g := t.fat_g + (presentScaled A_fat_g (rowPortions mainIdx mapped)).sum,
          gl := t.gl + (presentScaled A_gl (rowPortions mainIdx mapped)).sum,
          giWeightedCarb :=
            t.giWeightedCarb + (giWeightTerms (rowPortions mainIdx mapped)).sum,
          totalCarbForGI :=
            t.totalCarbForGI + (giCarbTerms (rowPortions mainIdx mapped)).sum,
          diiWeightedMass :=
            t.diiWeightedMass + (diiWeightTermsL (rowPortions mainIdx mapped)).sum,
          totalMassForDII :=
            t.totalMassForDII + (diiMassTerms (rowPortions mainIdx mapped)).sum } := by
  induction mapped with
  | nil =>
    intro t
    simp [buildTotalsAux, rowPortions, presentScaled, giWeightTerms, giCarbTerms,
      diiWeightTermsL, diiMassTerms]
  | cons m rest ih =>
    intro t
    simp only [buildTotalsAux]
    cases hrow : mainRowOf mainIdx m with
    | none =>
      have hpairs : rowPortions mainIdx (m :: rest) = rowPortions mainIdx rest := by
        simp [rowPortions, List.filterMap_cons, hrow]
      show buildTotalsAux mainIdx rest t = _
      rw [ih, hpairs]
    | some rp =>
      rcases rp with ⟨r, p⟩
      have hpairs : rowPortions mainIdx (m :: rest) = (r, p) :: rowPortions mainIdx rest := by
        simp [rowPortions, List.filterMap_cons, hrow]
      show buildTotalsAux mainIdx rest (totalsStep t (computeMacros r p) p) = _
      rw [ih, hpairs, presentScaled_cons_sum, presentScaled_cons_sum, presentScaled_cons_sum,
        presentScaled_cons_sum, presentScaled_cons_sum, presentScaled_cons_sum,
        giWeightTerms_cons_sum, giCarbTerms_cons_sum, diiWeightTermsL_cons_sum,
        diiMassTerms_cons_sum, totalsStep_closed]
      simp only [Totals.mk.injEq]
      and_intros <;> ring

/-- C3: every summed aggregate (calories, protein, fiber, carbs, fat,
glycemic load) equals the sum over exactly the mentions whose record has
a present value for that metric; in particular calories
`[100, null, 250]` total 350. -/
theorem totals_sum_over_present :
    (∀ (mapped : List Mention) (mainIdx : List (String × List CsvRow)),
      (buildTotals mapped mainIdx).calories
          = (presentScaled A_calories (rowPortions mainIdx mapped)).sum ∧
      (buildTotals mapped mainIdx).protein_g
          = (presentScaled A_protein_g (rowPortions mainIdx mapped)).sum ∧
      (buildTotals mapped mainIdx).fiber_g
          = (presentScaled A_fiber_g (rowPortions mainIdx mapped)).sum ∧
      (buildTotals mapped mainIdx).carbs_g
          = (presentScaled A_carbs_g (rowPortions mainIdx mapped)).sum ∧
      (buildTotals mapped mainIdx).fat_g
          = (presentScaled A_fat_g (rowPortions mainIdx mapped)).sum ∧
      (buildTotals mapped mainIdx).gl
          = (presentScaled A_gl (rowPortions mainIdx mapped)).sum) ∧
    (buildTotals exampleMapped exampleIdx).calories = 350 := by
  constructor
  · intro mapped mainIdx
    rw [buildTotals, buildTotalsAux_spec]
    simp [zeroTotals]
  · rw [buildTotals, buildTotalsAux_spec]
    have hrp : rowPortions exampleIdx exampleMapped
        = [(exRowA, 100), (exRowB, 100), (exRowC, 100)] := by decide
    have hA : num exRowA A_calories = some 100 := by decide
    have hB : num exRowB A_calories = none := by decide
    have hC : num exRowC A_calories = some 250 := by decide
    simp only [hrp, presentScaled, List.filterMap_cons, hA, hB, hC, Option.map_some',
      Option.map_none', List.filterMap_nil, zeroTotals, List.sum_cons, List.sum_nil]
    norm_num

/-- C1 counterexample: with a single mention whose record has GI 50 and
carbs −10, the carbs sum is −10 (nonzero), so the claimed overall GI is
`Σ(GI·carbs)/Σ(carbs) = 50`, but the code returns null because it
requires a strictly positive carbs sum. -/
theorem overallGI_negative_carbs_counterexample :
    overallGI (buildTotals giNegMapped giNegIdx) = none ∧
    specOverallGlycemicIndex giNegMapped giNegIdx = some 50 := by
  have hrp : rowPortions giNegIdx giNegMapped = [(giNegRow, 100)] := by decide
  have hgi : num giNegRow A_gi = some 50 := by decide
  have hcb : num giNegRow A_carbs_g = some (-10) := by decide
  constructor
  · rw [buildTotals, buildTotalsAux_spec]
    simp only [overallGI, zeroTotals, hrp, giCarbTerms, giWeightTerms, List.filterMap_cons,
      hgi, hcb, List.filterMap_nil, List.sum_cons, List.sum_nil]
    rw [if_neg (by norm_num)]
  · unfold specOverallGlycemicIndex
    rw [hrp]
    simp only [giCarbTerms, giWeightTerms, List.filterMap_cons, List.filterMap_nil,
      hgi, hcb, List.sum_cons, List.sum_nil]
    rw [if_neg (by norm_num)]
    norm_num

/-- C1 (amended): the overall glycemic index equals
`Σ(GI_i · carbs_i) / Σ(carbs_i)` over the mentions whose GI and carbs are
both present whenever that carbs sum is strictly positive, and is null
whenever the carbs sum is zero or negative. -/
theorem overallGI_weighted_by_carbs (mapped : List Mention)
    (mainIdx : List (String × List CsvRow)) :
    ((giCarbTerms (rowPortions mainIdx mapped)).sum > 0 →
      overallGI (buildTotals mapped mainIdx)
        = some ((giWeightTerms (rowPortions mainIdx mapped)).sum /
                  (giCarbTerms (rowPortions mainIdx mapped)).sum)) ∧
    ((giCarbTerms (rowPortions mainIdx mapped)).sum ≤ 0 →
      overallGI (buildTotals mapped mainIdx) = none) := by
  have hform := buildTotalsAux_spec mainIdx mapped zeroTotals
  rw [buildTotals] at *
  constructor
  · intro hpos
    rw [hform]
    simp only [overallGI, zeroTotals]
    rw [if_pos (by simpa using hpos)]
    simp
  · intro hle
    rw [hform]
    simp only [overallGI, zeroTotals]
    rw [if_neg (by simpa using not_lt.mpr hle)]

/-- C1 witness: the spec's example — carbs `[10, null, 20]`, GI
`[50, 80, 70]` — yields overall GI `(50·10 + 70·20)/30 = 190/3`. -/
theorem overallGI_weighted_by_carbs_witness :
    overallGI (buildTotals exampleMapped exampleIdx) = some (190 / 3) := by
  have hrp : rowPortions exampleIdx exampleMapped
      = [(exRowA, 100), (exRowB, 100), (exRowC, 100)] := by decide
  have hgiA : num exRowA A_gi = some 50 := by decide
  have hcbA : num exRowA A_carbs_g = some 10 := by decide
  have hgiB : num exRowB A_gi = some 80 := by decide
  have hcbB : num exRowB A_carbs_g = none := by decide
  have hgiC : num exRowC A_gi = some 70 := by decide
  have hcbC : num exRowC A_carbs_g = some 20 := by decide
  have hpos : (giCarbTerms (rowPortions exampleIdx exampleMapped)).sum > 0 := by
    rw [hrp]
    simp only [giCarbTerms, List.filterMap_cons, List.filterMap_nil, hgiA, hcbA,
      hgiB, hcbB, hgiC, hcbC, List.sum_cons, List.sum_nil]
    norm_num
  have h := (overallGI_weighted_by_carbs exampleMapped exampleIdx).1 hpos
  rw [h, hrp]
  simp only [giWeightTerms, giCarbTerms, List.filterMap_cons, List.filterMap_nil,
    hgiA, hcbA, hgiB, hcbB, hgiC, hcbC, List.sum_cons, List.sum_nil]
  norm_num

theorem suffixLoop_hit_general (aliasMap : List (String × String)) (canon : String) :
    ∀ (parts : List String) (i d : Nat),
      d < parts.length →
      truthyGet aliasMap (" ".intercalate (parts.drop d)) = some canon →
      (∀ j < d, truthyGet aliasMap (" ".intercalate (parts.drop j)) = none) →
      suffixLoop aliasMap parts i = some (canon, 9/10 - ((i + d : Nat) : ℚ) * (1/20)) := by
  intro parts
  induction parts with
  | nil =>
    intro i d hd _ _
    simp at hd
  | cons p rest ih =>
    intro i d hd hhit hprev
    cases d with
    | zero =>
      simp only [List.drop_zero] at hhit
      simp only [suffixLoop, hhit, Nat.add_zero]
    | succ e =>
      have h0 : truthyGet aliasMap (" ".intercalate (p :: rest)) = none := by
        have := hprev 0 (Nat.succ_pos e)
        simpa using this
      have hrec := ih (i + 1) e (by simpa using hd)
        (by simpa [List.drop_succ_cons] using hhit)
        (by
          intro j hj
          have := hprev (j + 1) (by omega)
          simpa [List.drop_succ_cons] using this)
      simp only [suffixLoop, h0]
      rw [hrec]
      congr 2
      push_cast
      ring

/-- The truncation loop returns the formula confidence at its hit
index. -/
theorem suffixLoop_first_hit (aliasMap : List (String × String)) (parts : List String)
    (k : Nat) (canon : String) (hk : k < parts.length)
    (hhit : truthyGet aliasMap (" ".intercalate (parts.drop k)) = some canon)
    (hprev : ∀ j < k, truthyGet aliasMap (" ".intercalate (parts.drop j)) = none) :
    suffixLoop aliasMap parts 0 = some (canon, 9/10 - (k : ℚ) * (1/20)) := by
  have := suffixLoop_hit_general aliasMap canon parts 0 k hk hhit hprev
  simpa using this

theorem suffixLoop_conf_le_one (aliasMap : List (String × String)) :
    ∀ (parts : List String) (i : Nat) (c : String) (q : ℚ),
      suffixLoop aliasMap parts i = some (c, q) → q ≤ 1 := by
  intro parts
  induction parts with
  | nil =>
    intro i c q h
    simp [suffixLoop] at h
  | cons p rest ih =>
    intro i c q h
    cases htg : truthyGet aliasMap (" ".intercalate (p :: rest)) with
    | some hit =>
      simp only [suffixLoop, htg, Option.some.injEq, Prod.mk.injEq] at h
      rw [← h.2]
      have hnn : (0 : ℚ) ≤ (i : ℚ) * (1/20) := by positivity
      linarith
    | none =>
      simp only [suffixLoop, htg] at h
      exact ih (i + 1) c q h

theorem mainMatchConf_le_one (norm c : String) : mainMatchConf norm c ≤ 1 := by
  unfold mainMatchConf
  have := min_le_left (9/10 : ℚ) (11/20 + (c.length : ℚ) / (max 8 norm.length : ℚ))
  linarith

theorem betterCand_conf_le_one (best : Option (String × ℚ)) (x : String) (conf : ℚ)
    (hb : ∀ c q, best = some (c, q) → q ≤ 1) (hconf : conf ≤ 1) :
    ∀ c q, betterCand best x conf = some (c, q) → q ≤ 1 := by
  intro c q h
  cases best with
  | none =>
    simp only [betterCand, Option.some.injEq, Prod.mk.injEq] at h
    rw [← h.2]
    exact hconf
  | some b =>
    simp only [betterCand] at h
    by_cases hgt : conf > b.2
    · rw [if_pos hgt] at h
      simp only [Option.some.injEq, Prod.mk.injEq] at h
      rw [← h.2]
      exact hconf
    · rw [if_neg hgt] at h
      simp only [Option.some.injEq] at h
      have := hb b.1 b.2 rfl
      rw [h] at this
      exact this

theorem bestMainMatch_conf_le_one (norm : String) :
    ∀ (cs : List String) (best : Option (String × ℚ)),
      (∀ c q, best = some (c, q) → q ≤ 1) →
      ∀ c q, bestMainMatch norm cs best = some (c, q) → q ≤ 1 := by
  intro cs
  induction cs with
  | nil =>
    intro best hb c q h
    exact hb c q h
  | cons x rest ih =>
    intro best hb c q h
    unfold bestMainMatch at h
    by_cases hcond : norm = x ∨ jsEndsWith norm (" " ++ x) = true ∨
        jsStartsWith norm (x ++ " ") = true ∨ jsIncludes norm x = true
    · rw [if_pos hcond] at h
      exact ih _ (betterCand_conf_le_one best x (mainMatchConf norm x) hb
        (mainMatchConf_le_one norm x)) c q h
    · rw [if_neg hcond] at h
      exact ih best hb c q h

theorem aliasCanonLoop_conf_le_one (norm : String) :
    ∀ (cs : List String) (c : String) (q : ℚ),
      aliasCanonLoop norm cs = some (c, q) → q ≤ 1 := by
  intro cs
  induction cs with
  | nil => intro c q h; cases h
  | cons x rest ih =>
    intro c q h
    unfold aliasCanonLoop at h
    by_cases heq : norm = x
    · rw [if_pos heq] at h
      simp only [Option.some.injEq, Prod.mk.injEq] at h
      rw [← h.2]; norm_num
    · rw [if_neg heq] at h
      by_cases hinc : jsIncludes norm x = true
      · rw [if_pos hinc] at h
        simp only [Option.some.injEq, Prod.mk.injEq] at h
        rw [← h.2]; norm_num
      · rw [if_neg hinc] at h
        exact ih c q h

theorem canonTiers_conf_le_one (norm : String) (aliasCanonLower mainCanonLower : List String)
    (c : String) (q : ℚ) (h : canonTiers norm aliasCanonLower mainCanonLower = some (c, q)) :
    q ≤ 1 := by
  unfold canonTiers at h
  by_cases hm : mainCanonLower ≠ []
  · rw [if_pos hm] at h
    by_cases hcont : mainCanonLower.contains norm = true
    · rw [if_pos hcont] at h
      simp only [Option.some.injEq, Prod.mk.injEq] at h
      rw [← h.2]; norm_num
    · rw [if_neg hcont] at h
      cases hb : bestMainMatch norm mainCanonLower none with
      | some b =>
        rw [hb] at h
        simp only [Option.some.injEq] at h
        have := bestMainMatch_conf_le_one norm mainCanonLower none
          (by intro c' q' hc'; cases hc') b.1 b.2 hb
        rw [h] at this
        exact this
      | none =>
        rw [hb] at h
        by_cases ha : aliasCanonLower ≠ []
        · rw [if_pos ha] at h
          exact aliasCanonLoop_conf_le_one norm aliasCanonLower c q h
        · rw [if_neg ha] at h; cases h
  · rw [if_neg hm] at h
    by_cases ha : aliasCanonLower ≠ []
    · rw [if_pos ha] at h
      exact aliasCanonLoop_conf_le_one norm aliasCanonLower c q h
    · rw [if_neg ha] at h; cases h

/-- C5 (amended): the resolver's confidence never exceeds 1, and a
progressive right-truncation match that drops `k` words from the front
yields confidence exactly `0.9 − 0.05·k` — with no clamping at 0, so the
confidence is negative once `k ≥ 19`. -/
theorem mapToCanonical_confidence :
    (∀ (norm : String) (aliasMap : List (String × String))
        (aliasCanonLower mainCanonLower : List String) (c : String) (q : ℚ),
      mapToCanonical norm aliasMap aliasCanonLower mainCanonLower = some (c, q) → q ≤ 1) ∧
    (∀ (norm : String) (aliasMap : List (String × String))
        (aliasCanonLower mainCanonLower : List String) (k : Nat) (canon : String),
      norm ≠ "" → aliasMap ≠ [] →
      truthyGet aliasMap norm = none →
      k < ((jsSplitSpace norm).filter (fun p => p ≠ "")).length →
      truthyGet aliasMap
          (" ".intercalate (((jsSplitSpace norm).filter (fun p => p ≠ "")).drop k))
        = some canon →
      (∀ j < k, truthyGet aliasMap
          (" ".intercalate (((jsSplitSpace norm).filter (fun p => p ≠ "")).drop j))
        = none) →
      mapToCanonical norm aliasMap aliasCanonLower mainCanonLower
        = some (canon, 9/10 - (k : ℚ) * (1/20))) := by
  constructor
  · intro norm aliasMap aliasCanonLower mainCanonLower c q h
    unfold mapToCanonical at h
    by_cases hn : norm = ""
    · rw [if_pos hn] at h; cases h
    · rw [if_neg hn] at h
      by_cases hm : aliasMap ≠ []
      · rw [if_pos hm] at h
        cases htg : truthyGet aliasMap norm with
        | some direct =>
          rw [htg] at h
          simp only [Option.some.injEq, Prod.mk.injEq] at h
          rw [← h.2]
        | none =>
          rw [htg] at h
          cases hsl : suffixLoop aliasMap ((jsSplitSpace norm).filter (fun p => p ≠ "")) 0 with
          | some hit =>
            rw [hsl] at h
            simp only [Option.some.injEq] at h
            have := suffixLoop_conf_le_one aliasMap
              ((jsSplitSpace norm).filter (fun p => p ≠ "")) 0 hit.1 hit.2 hsl
            rw [h] at this
            exact this
          | none =>
            rw [hsl] at h
            cases hfind : aliasMap.find? (fun p => jsIncludes norm p.1) with
            | some p =>
              rw [hfind] at h
              simp only [Option.some.injEq, Prod.mk.injEq] at h
              rw [← h.2]; norm_num
            | none =>
              rw [hfind] at h
              exact canonTiers_conf_le_one norm aliasCanonLower mainCanonLower c q h
      · rw [if_neg hm] at h
        exact canonTiers_conf_le_one norm aliasCanonLower mainCanonLower c q h
  · intro norm aliasMap aliasCanonLower mainCanonLower k canon hn hm htg hk hhit hprev
    unfold mapToCanonical
    rw [if_neg hn, if_pos hm, htg,
      suffixLoop_first_hit aliasMap ((jsSplitSpace norm).filter (fun p => p ≠ "")) k canon
        hk hhit hprev]

/-- C5 counterexample: a 20-word phrase whose only alias hit drops the
first 19 words gets confidence `0.9 − 0.05·19 = −0.05 < 0`, outside
`[0, 1]` and different from `max(0, 0.9 − 0.05·19) = 0`. -/
theorem mapToCanonical_negative_confidence :
    mapToCanonical "a a a a a a a a a a a a a a a a a a a banana"
        [("banana", "Banana")] [] [] = some ("Banana", -(1/20)) ∧
    (-(1/20) : ℚ) < 0 := by
  constructor
  · unfold mapToCanonical
    rw [if_neg (by decide), if_pos (by decide)]
    have htg : truthyGet [("banana", "Banana")]
        "a a a a a a a a a a a a a a a a a a a banana" = none := by decide
    rw [htg,
      suffixLoop_first_hit [("banana", "Banana")]
        ((jsSplitSpace "a a a a a a a a a a a a a a a a a a a banana").filter
          (fun p => p ≠ "")) 19 "Banana" (by decide) (by decide) (by decide)]
    norm_num
  · norm_num

/-- C5 witness for the amended truncation formula: dropping one word
yields confidence `0.9 − 0.05 = 0.85`. -/
theorem mapToCanonical_confidence_witness :
    mapToCanonical "baby spinach" [("spinach", "Spinach")] [] []
      = some ("Spinach", 17/20) := by
  have h := mapToCanonical_confidence.2 "baby spinach" [("spinach", "Spinach")] [] []
    1 "Spinach" (by decide) (by decide) (by decide) (by decide) (by decide) (by decide)
  rw [h]
  norm_num

/-- C6 counterexample: the raw phrase `"123"` normalizes to the empty
string and is skipped by the mapping loop, so one input phrase yields
zero mentions. -/
theorem buildMapped_drops_empty_normalization :
    buildMapped ["123"] [] [] [] [] = [] ∧ ["123"].length = 1 := by
  constructor
  · decide
  · rfl

/-- C6 (amended): every phrase whose normalization is nonempty produces
exactly one mention, in order (phrases normalizing to the empty string
are skipped); a phrase failing all resolver tiers is kept as an
unresolved mention with no canonical identity and confidence 0, and its
per-ingredient row has all nutrient fields null. -/
theorem buildMapped_one_mention_per_phrase :
    (∀ (raws : List String) (aliasMap : List (String × String))
        (aliasCanonLower mainCanonLower mainIdxKeys : List String),
      buildMapped raws aliasMap aliasCanonLower mainCanonLower mainIdxKeys
        = (raws.filter (fun r => normalizeIngredientLine r ≠ "")).map
            (resolvedMention aliasMap aliasCanonLower mainCanonLower mainIdxKeys)) ∧
    (∀ (aliasMap : List (String × String))
        (aliasCanonLower mainCanonLower mainIdxKeys : List String) (raw : String),
      mapToCanonical (normalizeIngredientLine raw) aliasMap aliasCanonLower mainCanonLower
          = none →
      resolvedMention aliasMap aliasCanonLower mainCanonLower mainIdxKeys raw
        = ⟨raw, none, 0⟩) ∧
    (∀ (mainIdx : List (String × List CsvRow)) (m : Mention),
      m.canonical = none →
      perIngRowOf mainIdx m =
        { ingredient := m.src, canonical := "Unmapped", portion_g := none,
          macros := emptyMacros }) := by
  refine ⟨?_, ?_, ?_⟩
  · intro raws aliasMap aliasCanonLower mainCanonLower mainIdxKeys
    induction raws with
    | nil => rfl
    | cons raw rest ih =>
      by_cases hn : normalizeIngredientLine raw = ""
      · simp [buildMapped, mentionOf, hn, List.filter_cons, ih]
      · simp [buildMapped, mentionOf, hn, List.filter_cons, ih]
  · intro aliasMap aliasCanonLower mainCanonLower mainIdxKeys raw hnone
    simp [resolvedMention, hnone]
  · intro mainIdx m hcanon
    simp [perIngRowOf, mainRowOf, hcanon, jsOrStr]

/-- C6 witness: a phrase matching nothing stays as an unresolved mention
whose table row has all nutrient fields null. -/
theorem buildMapped_one_mention_per_phrase_witness :
    resolvedMention [] [] [] [] "xyzzyq" = ⟨"xyzzyq", none, 0⟩ ∧
    perIngRowOf [] ⟨"xyzzyq", none, 0⟩ =
      { ingredient := "xyzzyq", canonical := "Unmapped", portion_g := none,
        macros := emptyMacros } := by
  constructor
  · exact buildMapped_one_mention_per_phrase.2.1 [] [] [] [] "xyzzyq" (by decide)
  · exact buildMapped_one_mention_per_phrase.2.2 [] ⟨"xyzzyq", none, 0⟩ rfl

theorem length_replaceNumsGo :
    ∀ (cs : List Char) (k : Nat) (pw : Bool), (replaceNumsGo k pw cs).length ≤ cs.length := by
  intro cs
  induction cs with
  | nil => intro k pw; cases k <;> simp [replaceNumsGo]
  | cons c rest ih =>
    intro k pw
    cases k with
    | succ m =>
      simp only [replaceNumsGo, List.length_cons]
      exact Nat.le_succ_of_le (ih m (isWordChar c))
    | zero =>
      cases hm : numMatchLen pw (c :: rest) with
      | some n =>
        simp only [replaceNumsGo, hm, List.length_cons]
        exact Nat.succ_le_succ (ih (n - 1) (isWordChar c))
      | none =>
        simp only [replaceNumsGo, hm, List.length_cons]
        exact Nat.succ_le_succ (ih 0 (isWordChar c))

theorem length_replaceWordsGo (cands : List (List Char)) :
    ∀ (cs : List Char) (k : Nat) (pw : Bool),
      (replaceWordsGo cands k pw cs).length ≤ cs.length := by
  intro cs
  induction cs with
  | nil => intro k pw; cases k <;> simp [replaceWordsGo]
  | cons c rest ih =>
    intro k pw
    cases k with
    | succ m =>
      simp only [replaceWordsGo, List.length_cons]
      exact Nat.le_succ_of_le (ih m (isWordChar c))
    | zero =>
      cases pw with
      | true =>
        simp only [replaceWordsGo, if_pos, List.length_cons]
        exact Nat.succ_le_succ (ih 0 (isWordChar c))
      | false =>
        cases hm : tryCands (c :: rest) cands with
        | some n =>
          simp only [replaceWordsGo, hm, List.length_cons, Bool.false_eq_true, if_false]
          exact Nat.succ_le_succ (ih (n - 1) (isWordChar c))
        | none =>
          simp only [replaceWordsGo, hm, List.length_cons, Bool.false_eq_true, if_false]
          exact Nat.succ_le_succ (ih 0 (isWordChar c))

theorem length_collapseWsGo :
    ∀ (cs : List Char) (b : Bool), (collapseWsGo b cs).length ≤ cs.length := by
  intro cs
  induction cs with
  | nil => intro b; simp [collapseWsGo]
  | cons c rest ih =>
    intro b
    cases hws : c.isWhitespace with
    | true =>
      cases b with
      | true =>
        simp only [collapseWsGo, hws, if_pos, List.length_cons]
        exact Nat.le_succ_of_le (ih true)
      | false =>
        simp only [collapseWsGo, hws, if_pos, Bool.false_eq_true, if_false, List.length_cons]
        exact Nat.succ_le_succ (ih true)
    | false =>
      simp only [collapseWsGo, hws, Bool.false_eq_true, if_false, List.length_cons]
      exact Nat.succ_le_succ (ih false)

theorem length_trimChars (cs : List Char) : (trimChars cs).length ≤ cs.length := by
  unfold trimChars
  have h1 := dropWhile_length_le Char.isWhitespace cs
  have h2 := dropWhile_length_le Char.isWhitespace (cs.dropWhile Char.isWhitespace).reverse
  simp only [List.length_reverse] at h2 ⊢
  omega

theorem jsTrim_length_le (s : String) : (jsTrim s).length ≤ s.length :=
  length_trimChars s.toList

theorem norm1_length_le (s : String) : (norm1 s).length ≤ s.length :=
  le_trans (jsTrim_length_le _) (length_replaceNumsGo s.toList 0 false)

theorem norm23_length_le (cands : List (List Char)) (s : String) :
    (norm23 cands s).length ≤ s.length :=
  length_replaceWordsGo cands s.toList 0 false

theorem norm4_length_eq (s : String) : (norm4 s).length = s.length :=
  List.length_map s.toList stripChar

theorem norm5_length_le (s : String) : (norm5 s).length ≤ s.length :=
  le_trans (jsTrim_length_le _) (length_collapseWsGo s.toList false)

theorem jsDropRight_length_le (s : String) (n : Nat) : (jsDropRight s n).length ≤ s.length := by
  have := List.length_take (s.toList.length - n) s.toList
  simp only [jsDropRight]
  show (s.toList.take (s.toList.length - n)).length ≤ s.toList.length
  omega

theorem norm6_length_le (s : String) : (norm6 s).length ≤ s.length := by
  unfold norm6
  by_cases h1 : jsEndsWith s "es" = true
  · rw [if_pos h1]; exact jsDropRight_length_le s 2
  · rw [if_neg h1]
    by_cases h2 : jsEndsWith s "s" = true
    · rw [if_pos h2]; exact jsDropRight_length_le s 1
    · rw [if_neg h2]

theorem jsToLower_length (s : String) : (jsToLower s).length = s.length :=
  List.length_map s.toList Char.toLower

theorem normalizeIngredientLine_length_le (line : String) :
    (normalizeIngredientLine line).length ≤ line.length := by
  unfold normalizeIngredientLine
  refine le_trans (jsTrim_length_le _) ?_
  refine le_trans (norm6_length_le _) ?_
  refine le_trans (norm5_length_le _) ?_
  refine le_trans (le_of_eq (norm4_length_eq _)) ?_
  refine le_trans (norm23_length_le _ _) ?_
  refine le_trans (norm23_length_le _ _) ?_
  refine le_trans (norm1_length_le _) ?_
  exact le_of_eq (jsToLower_length line)

/-- C8 counterexample: normalization is not a fixed point on its own
image — `"glasses"` normalizes to `"glass"`, which re-normalizes to
`"glas"`. -/
theorem normalizeIngredientLine_not_idempotent :
    normalizeIngredientLine (normalizeIngredientLine "glasses")
      ≠ normalizeIngredientLine "glasses" := by decide

/-- C8 (amended): normalization never lengthens a phrase, so iterated
normalization only shortens; but it is not a fixed point on its image
(the trailing-s heuristic and token removal can fire again). -/
theorem normalizeIngredientLine_length_monotone (line : String) :
    (normalizeIngredientLine line).length ≤ line.length ∧
    (normalizeIngredientLine (normalizeIngredientLine line)).length
      ≤ (normalizeIngredientLine line).length :=
  ⟨normalizeIngredientLine_length_le line,
   normalizeIngredientLine_length_le (normalizeIngredientLine line)⟩

theorem mk_toList (s : String) : String.mk s.toList = s := rfl

theorem getLast?_mem {α : Type} : ∀ (l : List α) (a : α), l.getLast? = some a → a ∈ l := by
  intro l
  induction l with
  | nil => intro a h; cases h
  | cons c rest ih =>
    intro a h
    cases rest with
    | nil =>
      simp only [List.getLast?_singleton, Option.some.injEq] at h
      simp [h]
    | cons d rest' =>
      rw [List.getLast?_cons_cons] at h
      exact List.mem_cons_of_mem c (ih a h)

theorem splitNl_no_nl : ∀ (cs : List Char), '\n' ∉ cs → splitNl cs = [cs] := by
  intro cs
  induction cs with
  | nil => intro _; rfl
  | cons c rest ih =>
    intro h
    have hc : ¬(c = '\n') := fun e => h (e ▸ List.mem_cons_self c rest)
    simp only [splitNl, if_neg hc]
    rw [ih fun hm => h (List.mem_cons_of_mem c hm)]

theorem splitNl_append : ∀ (cs t : List Char), '\n' ∉ cs →
    splitNl (cs ++ '\n' :: t) = cs :: splitNl t := by
  intro cs
  induction cs with
  | nil =>
    intro t _
    simp [splitNl]
  | cons c rest ih =>
    intro t h
    have hc : ¬(c = '\n') := fun e => h (e ▸ List.mem_cons_self c rest)
    simp only [List.cons_append, splitNl, if_neg hc, List.append_eq]
    rw [ih t fun hm => h (List.mem_cons_of_mem c hm)]

/-- When a piece contains no carriage return, the `\r?`-stripping of the
line splitter leaves it unchanged. -/
theorem dropCR_id (cs : List Char) (h : '\r' ∉ cs) :
    (if cs.getLast? = some '\r' then cs.dropLast else cs) = cs := by
  rw [if_neg]
  intro hl
  exact h (getLast?_mem cs '\r' hl)

theorem jsSplitLines_joinLines : ∀ (ps : List String), ps ≠ [] →
    (∀ p ∈ ps, '\n' ∉ p.toList ∧ '\r' ∉ p.toList) →
    jsSplitLines (joinLines ps) = ps := by
  intro ps
  induction ps with
  | nil => intro hne _; cases hne rfl
  | cons p rest ih =>
    intro _ h
    have hp := h p (List.mem_cons_self p rest)
    cases rest with
    | nil =>
      show (splitNl p.toList).map _ = [p]
      rw [splitNl_no_nl p.toList hp.1]
      simp only [List.map_cons, List.map_nil, dropCR_id p.toList hp.2, mk_toList]
    | cons q rest' =>
      have hrec := ih (by simp) fun x hx => h x (List.mem_cons_of_mem p hx)
      show (splitNl (p.toList ++ '\n' :: joinNl ((q :: rest').map String.toList))).map
          (fun cs => String.mk (if cs.getLast? = some '\r' then cs.dropLast else cs))
        = p :: q :: rest'
      rw [splitNl_append _ _ hp.1]
      rw [List.map_cons, dropCR_id p.toList hp.2, mk_toList]
      exact congrArg (p :: ·) hrec

theorem joinLines_ne_empty (p0 : String) (rest : List String) (h : p0 ≠ "") :
    joinLines (p0 :: rest) ≠ "" := by
  cases rest with
  | nil => simpa [joinLines, joinNl, mk_toList] using h
  | cons q rest' =>
    intro heq
    have := congrArg String.toList heq
    simp only [joinLines] at this
    rw [show (String.mk (joinNl ((p0 :: q :: rest').map String.toList))).toList
      = joinNl ((p0 :: q :: rest').map String.toList) from rfl] at this
    simp [joinNl] at this

theorem jsFindIndex_eq_none {α : Type} (pred : α → Bool) :
    ∀ (l : List α), (∀ a ∈ l, pred a = false) → jsFindIndex pred l = none := by
  intro l
  induction l with
  | nil => intro _; rfl
  | cons a rest ih =>
    intro h
    unfold jsFindIndex
    rw [if_neg (by simp [h a (List.mem_cons_self a rest)])]
    rw [ih fun x hx => h x (List.mem_cons_of_mem a hx)]
    rfl

theorem map_self_of_fixed {α : Type} (f : α → α) :
    ∀ (l : List α), (∀ a ∈ l, f a = a) → l.map f = l := by
  intro l
  induction l with
  | nil => intro _; rfl
  | cons a rest ih =>
    intro h
    rw [List.map_cons, h a (List.mem_cons_self a rest),
      ih fun x hx => h x (List.mem_cons_of_mem a hx)]

theorem filter_self_of_true {α : Type} (pred : α → Bool) :
    ∀ (l : List α), (∀ a ∈ l, pred a = true) → l.filter pred = l := by
  intro l
  induction l with
  | nil => intro _; rfl
  | cons a rest ih =>
    intro h
    rw [List.filter_cons, if_pos (h a (List.mem_cons_self a rest)),
      ih fun x hx => h x (List.mem_cons_of_mem a hx)]

theorem stripMarker_of_not_bullet (p : String) (hb : isBullet p = false)
    (ht : jsTrim p = p) : stripMarker p = p := by
  unfold stripMarker
  cases hl : p.toList with
  | nil => exact ht
  | cons c rest =>
    have hc : isMarkerChar c = false := by
      unfold isBullet at hb
      rw [hl] at hb
      exact hb
    show (if isMarkerChar c = true then jsTrim (String.mk (rest.dropWhile Char.isWhitespace))
        else jsTrim p) = p
    rw [if_neg (by simp [hc])]
    exact ht

theorem extractLoop_stable : ∀ (ps : List String), (∀ p ∈ ps, stablePhrase p) →
    extractLoop ps = ps := by
  intro ps
  induction ps with
  | nil => intro _; rfl
  | cons p rest ih =>
    intro h
    obtain ⟨hne, htrim, _, _, _, hterm, hbul, hacc⟩ := h p (List.mem_cons_self p rest)
    have hrest := ih fun x hx => h x (List.mem_cons_of_mem p hx)
    unfold extractLoop
    rw [if_neg hne, if_neg (by simp [hterm])]
    by_cases hu : hasUnitSub p = true
    · rw [if_pos (by simp [hu]), stripMarker_of_not_bullet p hbul htrim, hrest]
    · rcases hacc with hu' | ⟨hmeta, hcount⟩
      · exact absurd hu' hu
      · rw [if_neg (by simp [hu, hbul]), if_neg (by simp [hmeta]), if_pos hcount, hrest]

/-- C9 counterexample: the text `"- ingredients blend"` segments to the
single phrase `"ingredients blend"`, but re-segmenting that phrase treats
it as an `Ingredients` header and yields no phrases. -/
theorem extract_resegment_counterexample :
    extractIngredientsFromText
        (joinLines (extractIngredientsFromText "- ingredients blend"))
      ≠ extractIngredientsFromText "- ingredients blend" := by
  decide

/-- C9 (amended): re-segmenting the extracted phrases reproduces them
provided no phrase itself looks like an ingredients-header, terminator or
metadata line, none starts with a list-marker character, and each is
accepted by the scan unchanged (`stablePhrase`). -/
theorem extract_resegment_stable (ps : List String)
    (h : ∀ p ∈ ps, stablePhrase p) :
    extractIngredientsFromText (joinLines ps) = ps := by
  cases ps with
  | nil => rfl
  | cons p0 rest =>
    have hparts : ∀ p ∈ p0 :: rest, stablePhrase p := h
    have hp0 := hparts p0 (List.mem_cons_self p0 rest)
    have hsplit : jsSplitLines (joinLines (p0 :: rest)) = p0 :: rest :=
      jsSplitLines_joinLines (p0 :: rest) (by simp) fun p hp =>
        ⟨(hparts p hp).2.2.1, (hparts p hp).2.2.2.1⟩
    have hmap : (p0 :: rest).map jsTrim = p0 :: rest :=
      map_self_of_fixed jsTrim (p0 :: rest) fun p hp => (hparts p hp).2.1
    have hfilter : (p0 :: rest).filter (fun l => l ≠ "") = p0 :: rest :=
      filter_self_of_true _ (p0 :: rest) fun p hp => by
        simpa using (hparts p hp).1
    have hfind : jsFindIndex isIngHeader (p0 :: rest) = none :=
      jsFindIndex_eq_none isIngHeader (p0 :: rest) fun p hp => (hparts p hp).2.2.2.2.1
    have hbody : extractBody (p0 :: rest) = p0 :: rest := by
      unfold extractBody
      rw [hfind]
      simp only [Option.getD_none, List.drop_zero]
      rw [if_neg (by simp [hp0.2.2.2.2.1])]
    unfold extractIngredientsFromText
    rw [if_neg (joinLines_ne_empty p0 rest hp0.1), hsplit, hmap, hfilter, hbody,
      extractLoop_stable (p0 :: rest) h, hfilter]

/-- C9 witness: two ordinary short phrases re-segment to themselves. -/
theorem extract_resegment_stable_witness :
    extractIngredientsFromText (joinLines ["two apple", "salt"]) = ["two apple", "salt"] :=
  extract_resegment_stable ["two apple", "salt"] (by decide)

end NutritionTables
